import Mathlib

/-!
Verification of the hand-replay and cross-iteration analytics engine of the
poker tournament web client (`ReplaySection.tsx`).

The embedding models JavaScript numbers as `ℚ` (every arithmetic operation
used by the code — addition, subtraction, multiplication, division, `abs`,
`max`, `min`, comparison — is exact on the values involved), JS objects as
association lists in insertion order, and `undefined` as `Option.none`.
`Math.sqrt` is the one operation with no rational value; theorems refer to it
through `Real.sqrt` applied to the rational operand.
-/

/-- JS `x || d` for a possibly-undefined number `x`: `undefined` and `0` are
falsy, every other number is returned unchanged. -/
def jsOr : Option ℚ → ℚ → ℚ
  | some v, d => if v = 0 then d else v
  | none, d => d

/-- JS `x || d` for a number that is certainly defined. -/
def jsOrNum (q d : ℚ) : ℚ := if q = 0 then d else q

/-- JS `x || d` for a possibly-undefined string: `undefined` and `""` are
falsy. -/
def jsOrStr : Option String → String → String
  | some s, d => if s = "" then d else s
  | none, d => d

/-- JS object property write `m[k] = v`: update in place if the key exists
(keeping enumeration order), otherwise append the new key at the end. -/
def jsSet (m : List (ℕ × ℚ)) (k : ℕ) (v : ℚ) : List (ℕ × ℚ) :=
  match m with
  | [] => [(k, v)]
  | (k', v') :: t => if k' = k then (k, v) :: t else (k', v') :: jsSet t k v

/-- JS `Math.round`: round half toward positive infinity. -/
def jsRound (q : ℚ) : ℤ := ⌊q + 1/2⌋

/-- `Math.round(q * 100) / 100`: round to two decimal places. -/
def jsRound2 (q : ℚ) : ℚ := (jsRound (q * 100) : ℚ) / 100

/-- One entry of a round's `action_sequence`.  The pot-snapshot fields
(`pot_after_action`, `side_pots_after_action`, …) are carried by the source
record but are not read by any function under verification, so they are
omitted here.  `player` is the raw zero-based player index (the source
round-trips it through `String(...)`/`parseInt`). -/
structure ActionSequence where
  action : String
  amount : ℚ
  player : ℕ
  timestamp : ℚ
deriving DecidableEq

/-- One betting round of the stored hand record. -/
structure GameRound where
  bets : List (ℕ × ℚ)
  action_sequence : Option (List ActionSequence)
deriving DecidableEq

/-- The `playerMoney` sub-record; keys are `rawPlayerIndex + 1`. -/
structure PlayerMoney where
  startingMoney : List (ℕ × ℚ)
  finalMoney : List (ℕ × ℚ)
deriving DecidableEq

/-- The stored hand record (`GameData` in the source).  `rounds` is keyed by
the numeric round id in object insertion order. -/
structure GameData where
  rounds : List (ℕ × GameRound)
  playerNames : List (ℕ × String)
  finalBoard : List String
  playerIdToUsername : Option (List (ℕ × String))
  playerMoney : Option PlayerMoney
deriving DecidableEq

/-- The two cursor modes of the replay view. -/
inductive ViewMode
  | action
  | round
deriving DecidableEq

/-- The flat action list: `Object.values(gameData.rounds)` in insertion
order, concatenating each round's `action_sequence` when present. -/
def actionList (g : GameData) : List ActionSequence :=
  g.rounds.foldl (fun acc r => acc ++ r.2.action_sequence.getD []) []

/-- `gameData.playerMoney?.startingMoney?.[pid + 1] || 10000`. -/
def startingMoneyOf (g : GameData) (pid : ℕ) : ℚ :=
  jsOr (g.playerMoney.bind fun pm => pm.startingMoney.lookup (pid + 1)) 10000

/-- The two maps maintained by the stacks/deltas effect (source variables
`stacks` and `deltas`; renamed here because `stacks` is a reserved word in
the ambient library). -/
structure StackState where
  stackMap : List (ℕ × ℚ)
  deltaMap : List (ℕ × ℚ)
deriving DecidableEq

/-- Initialization loop: every player of `playerNames` starts at their
starting money with delta 0. -/
def initState (g : GameData) : StackState :=
  g.playerNames.foldl
    (fun s p =>
      { stackMap := jsSet s.stackMap p.1 (startingMoneyOf g p.1),
        deltaMap := jsSet s.deltaMap p.1 0 })
    ⟨[], []⟩

/-- The action kinds that deduct from the stack in the source loop:
`action.action === 'CALL' || action.action === 'RAISE' || action.action === 'BET'`. -/
def actionDeducts (a : String) : Bool :=
  a == "CALL" || a == "RAISE" || a == "BET"

/-- One step of the action-mode loop body. -/
def applyAction (g : GameData) (s : StackState) (a : ActionSequence) : StackState :=
  let sm := startingMoneyOf g a.player
  if actionDeducts a.action then
    { stackMap := jsSet s.stackMap a.player (jsOr (s.stackMap.lookup a.player) sm - a.amount),
      deltaMap := jsSet s.deltaMap a.player (jsOr (s.deltaMap.lookup a.player) 0 - a.amount) }
  else s

/-- Action-mode reconstruction: run the loop over indices
`0 ≤ i ≤ currentActionIdx` (bounded by the list length). -/
def stateAction (g : GameData) (currentActionIdx : ℕ) : StackState :=
  ((actionList g).take (currentActionIdx + 1)).foldl (applyAction g) (initState g)

/-- `Object.keys(gameData.rounds).sort((a, b) => parseInt(a) - parseInt(b))`. -/
def roundKeysSorted (g : GameData) : List ℕ :=
  (g.rounds.map Prod.fst).mergeSort (fun a b => decide (a ≤ b))

/-- One `Object.entries(round.bets).forEach` step of the round-mode loop. -/
def applyBet (g : GameData) (s : StackState) (b : ℕ × ℚ) : StackState :=
  let sm := startingMoneyOf g b.1
  { stackMap := jsSet s.stackMap b.1 (jsOr (s.stackMap.lookup b.1) sm - b.2),
    deltaMap := jsSet s.deltaMap b.1 (jsOr (s.deltaMap.lookup b.1) 0 - b.2) }

/-- Process one round of the round-mode loop (`gameData.rounds[roundKeys[i]]`). -/
def applyRound (g : GameData) (s : StackState) (k : ℕ) : StackState :=
  match g.rounds.lookup k with
  | some r => r.bets.foldl (applyBet g) s
  | none => s

/-- Round-mode reconstruction: run the loop over sorted round keys
`0 ≤ i ≤ currentRoundIdx` (bounded by the number of rounds). -/
def stateRound (g : GameData) (currentRoundIdx : ℕ) : StackState :=
  ((roundKeysSorted g).take (currentRoundIdx + 1)).foldl (applyRound g) (initState g)

/-- The scan bound shared by `hasPlayerFolded` / `isPlayerAllIn`:
`viewMode === 'action' ? currentActionIdx : actionList.length - 1`. -/
def flagCursor (g : GameData) (mode : ViewMode) (currentActionIdx : ℕ) : ℕ :=
  match mode with
  | .action => currentActionIdx
  | .round => (actionList g).length - 1

/-- `hasPlayerFolded`: scan the flat action list up to the mode's bound for a
`FOLD` by the player. -/
def hasPlayerFolded (g : GameData) (mode : ViewMode) (currentActionIdx pid : ℕ) : Bool :=
  if (actionList g).length = 0 then false
  else
    ((actionList g).take (flagCursor g mode currentActionIdx + 1)).any
      (fun a => a.player == pid && a.action == "FOLD")

/-- `isPlayerAllIn`: identical scan, matching the literal `'ALL IN'`. -/
def isPlayerAllIn (g : GameData) (mode : ViewMode) (currentActionIdx pid : ℕ) : Bool :=
  if (actionList g).length = 0 then false
  else
    ((actionList g).take (flagCursor g mode currentActionIdx + 1)).any
      (fun a => a.player == pid && a.action == "ALL IN")

/-- `getBoardCards`, parameterized on the resolved `completedRounds` value
(the mode-dependent resolution happens before the switch in the source). -/
def getBoardCards (finalBoard : List String) (completedRounds : ℕ) : List String :=
  match completedRounds with
  | 0 => []
  | 1 => finalBoard.take 3
  | 2 => finalBoard.take 4
  | 3 => finalBoard.take 5
  | _ => finalBoard

/-- `gameData?.playerIdToUsername?.[pid + 1] || String(pid)`. -/
def getPlayerUsername (g : GameData) (pid : ℕ) : String :=
  jsOrStr (g.playerIdToUsername.bind fun m => m.lookup (pid + 1)) (toString pid)

/-- The per-player delta computed inside `getWinnerInfo`:
`(finalMoney[pid+1] || 0) - (startingMoney[pid+1] || 0)`. -/
def winnerDelta (pm : PlayerMoney) (pid : ℕ) : ℚ :=
  jsOr (pm.finalMoney.lookup (pid + 1)) 0 - jsOr (pm.startingMoney.lookup (pid + 1)) 0

/-- One row of the winners/losers summary. -/
structure WinnerEntry where
  pid : ℕ
  username : String
  amount : ℚ
  delta : ℚ
deriving DecidableEq

/-- `getWinnerInfo`: `null` when `playerMoney` is absent, else partition the
players of `playerNames` into winners (`delta > 0`) and losers (`delta < 0`). -/
def getWinnerInfo (g : GameData) : Option (List WinnerEntry × List WinnerEntry) :=
  match g.playerMoney with
  | none => none
  | some pm =>
      let mk : ℕ → WinnerEntry := fun pid =>
        { pid := pid
          username := getPlayerUsername g pid
          amount := jsOr (pm.finalMoney.lookup (pid + 1)) 0
          delta := winnerDelta pm pid }
      some
        (g.playerNames.filterMap fun p =>
           if (mk p.1).delta > 0 then some (mk p.1) else none,
         g.playerNames.filterMap fun p =>
           if (mk p.1).delta < 0 then some (mk p.1) else none)

/-! ### Cross-iteration analytics (`calculateIterationStats`,
`detectInterestingGames`, `downsampleUserData`) -/

/-- One aggregated statistic (`IterationStats` in the source).  The source
also stores `standardDeviation = Math.sqrt(variance)`; the square root has no
rational value, so theorems express it as `Real.sqrt variance`. -/
structure IterationStats where
  iteration : ℕ
  mean : ℚ
  variance : ℚ
  range : ℚ
  scores : List ℚ
deriving DecidableEq, Inhabited

/-- `Math.max(...)` over a list the caller has checked to be nonempty. -/
def jsMax : List ℚ → ℚ
  | [] => 0
  | h :: t => t.foldl max h

/-- `Math.min(...)` over a list the caller has checked to be nonempty. -/
def jsMin : List ℚ → ℚ
  | [] => 0
  | h :: t => t.foldl min h

/-- `calculateIterationStats`: per-index mean / population variance / range
over every player that has a value at that index.  (`typeof x === 'number'`
is identically true in the model, and the `maxIterations === 0` early return
is unreachable once a valid user exists.) -/
def calculateIterationStats (data : List (String × List ℚ)) : List IterationStats :=
  if data.length = 0 then []
  else
    let validUsers := data.filter fun u => u.2.length > 0
    if validUsers.length = 0 then []
    else
      let maxIterations := (validUsers.map fun u => u.2.length).foldl max 0
      if maxIterations = 0 then []
      else
        (List.range maxIterations).filterMap fun i =>
          let scores := validUsers.filterMap fun u => u.2[i]?
          if scores.length = 0 then none
          else
            let sum := scores.foldl (· + ·) 0
            let mean := sum / (scores.length : ℚ)
            let variance :=
              (scores.foldl (fun acc s => acc + (s - mean) ^ 2) 0) / (scores.length : ℚ)
            some
              { iteration := i + 1
                mean := mean
                variance := variance
                range := jsMax scores - jsMin scores
                scores := scores }

/-- The claim's description of the contributing scores at index `i`: the
values at `i` of exactly those players whose series has an entry there
(`u.2[i]? = some v ↔ i < u.2.length` with `v` the value at `i`). -/
def contributingScores (data : List (String × List ℚ)) (i : ℕ) : List ℚ :=
  data.filterMap fun u => u.2[i]?

/-- The aggregator as the claim words it: for each index with at least one
contributing score, emit mean / population variance / range over those
scores; skip indices with none. -/
def iterationStatsSpec (data : List (String × List ℚ)) : List IterationStats :=
  (List.range ((data.map fun u => u.2.length).foldl max 0)).filterMap fun i =>
    let scores := contributingScores data i
    if scores = [] then none
    else
      let mean := scores.sum / (scores.length : ℚ)
      some
        { iteration := i + 1
          mean := mean
          variance := (scores.map fun s => (s - mean) ^ 2).sum / (scores.length : ℚ)
          range := jsMax scores - jsMin scores
          scores := scores }

/-- A fired heuristic (`reason`/`significance`; the `description` string is
display-only interpolation and is omitted). -/
structure GameReason where
  reason : String
  significance : ℚ
deriving DecidableEq

/-- One detected game (`InterestingGame` in the source). -/
structure InterestingGame where
  iteration : ℕ
  reasons : List GameReason
  totalSignificance : ℚ
deriving DecidableEq

/-- `interestingMap.get(iteration)` after the get-or-create step. -/
def findGame (m : List InterestingGame) (it : ℕ) : InterestingGame :=
  (m.find? fun e => e.iteration == it).getD ⟨it, [], 0⟩

/-- `interestingMap.set` semantics: replace in place when the key exists,
otherwise append (JS `Map` preserves first-insertion order). -/
def upsert (m : List InterestingGame) (e : InterestingGame) : List InterestingGame :=
  match m with
  | [] => [e]
  | h :: t => if h.iteration = e.iteration then e :: t else h :: upsert t e

/-- `combinedChange = max(|Δ|/1000, prevScore !== 0 ? |Δ|/|prevScore| : 0)`. -/
def combinedChange (prevScore currentScore : ℚ) : ℚ :=
  let absoluteChange := |currentScore - prevScore|
  let percentageChange := if prevScore ≠ 0 then absoluteChange / |prevScore| else 0
  max (absoluteChange / 1000) percentageChange

/-- The breakthrough/collapse scan: the player maximizing `combinedChange`,
with its change kind (`maxPlayerChange` / `playerWithMaxChange` /
`playerChangeType` in the source). -/
def maxChangeScan (validUsers : List (String × List ℚ)) (i : ℕ) : ℚ × String × String :=
  validUsers.foldl
    (fun acc u =>
      if i < u.2.length ∧ i - 1 < u.2.length then
        let currentScore := u.2.getD i 0
        let prevScore := u.2.getD (i - 1) 0
        let comb := combinedChange prevScore currentScore
        if comb > acc.1 then
          (comb, u.1, if currentScore > prevScore then "breakthrough" else "collapse")
        else acc
      else acc)
    (0, "", "")

/-- The breakthrough/collapse block of the detector loop body. -/
def breakthroughStep (data validUsers : List (String × List ℚ)) (i : ℕ)
    (e : InterestingGame) : InterestingGame :=
  let scan := maxChangeScan validUsers i
  if scan.1 > 2/5 ∧ scan.2.1 ≠ "" then
    match data.lookup scan.2.1 with
    | some userData =>
        if i < userData.length ∧ i - 1 < userData.length then
          { e with
            reasons := e.reasons ++
              [⟨if scan.2.2 = "breakthrough" then "Player Breakthrough"
                else "Player Collapse", scan.1⟩]
            totalSignificance := e.totalSignificance + scan.1 }
        else e
    | none => e
  else e

/-- The underdog-comeback block: fires per player at or below the
30th-percentile entry of the previous scores, improving by more than half the
current mean.  `Math.floor(len * 0.3)` is modelled as `3 * len / 10` in ℕ. -/
def comebackStep (validUsers : List (String × List ℚ)) (prev current : IterationStats)
    (i : ℕ) (e : InterestingGame) : InterestingGame :=
  if 2 ≤ i then
    validUsers.foldl
      (fun e u =>
        if i < u.2.length ∧ i - 2 < u.2.length then
          let oneRoundAgo := u.2.getD (i - 1) 0
          let currentScore := u.2.getD i 0
          let sortedScores := prev.scores.mergeSort fun a b => decide (a ≤ b)
          match sortedScores.get? (3 * sortedScores.length / 10) with
          | some bottomThreshold =>
              let improvement := currentScore - oneRoundAgo
              if oneRoundAgo ≤ bottomThreshold ∧ improvement > current.mean * (1/2) then
                { e with
                  reasons := e.reasons ++
                    [⟨"Underdog Comeback", improvement / jsOrNum current.mean 1⟩]
                  totalSignificance :=
                    e.totalSignificance + improvement / jsOrNum current.mean 1 }
              else e
          | none => e
        else e)
      e
  else e

/-- The leadership-change block.  `Math.max(...)` of an empty score list is
`-Infinity`, which no array entry equals; `List.maximum?` returning `none`
models that case. -/
def leadershipStep (data validUsers : List (String × List ℚ))
    (prev current : IterationStats) (i : ℕ) (e : InterestingGame) : InterestingGame :=
  if 1 ≤ i then
    let prevMax := prev.scores.max?
    let currentMax := current.scores.max?
    let prevLeader := validUsers.foldl
      (fun acc u =>
        if i - 1 < u.2.length ∧ some (u.2.getD (i - 1) 0) = prevMax then u.1 else acc) ""
    let currentLeader := validUsers.foldl
      (fun acc u =>
        if i < u.2.length ∧ some (u.2.getD i 0) = currentMax then u.1 else acc) ""
    if prevLeader ≠ "" ∧ currentLeader ≠ "" ∧ prevLeader ≠ currentLeader then
      match data.lookup prevLeader with
      | some arr =>
          if i - 1 < arr.length ∧ i < arr.length then
            let leadershipLoss := arr.getD (i - 1) 0 - arr.getD i 0
            if leadershipLoss > current.mean * (3/10) then
              { e with
                reasons := e.reasons ++
                  [⟨"Leadership Change", leadershipLoss / jsOrNum current.mean 1⟩]
                totalSignificance :=
                  e.totalSignificance + leadershipLoss / jsOrNum current.mean 1 }
            else e
          else e
      | none => e
    else e
  else e

/-- One iteration `i` of the detector's main loop: the 0.3 pre-filter on
variance/mean change, then the three heuristic blocks on the map entry. -/
def processIteration (data validUsers : List (String × List ℚ))
    (stats : List IterationStats) (m : List InterestingGame) (i : ℕ) :
    List InterestingGame :=
  let current := stats.getD i default
  let prev := stats.getD (i - 1) default
  let varianceChange := |current.variance - prev.variance| / jsOrNum prev.variance 1
  let meanChange := |current.mean - prev.mean| / jsOrNum prev.mean 1
  if varianceChange < 3/10 ∧ meanChange < 3/10 then m
  else
    let e0 := findGame m current.iteration
    let e1 := breakthroughStep data validUsers i e0
    let e2 := comebackStep validUsers prev current i e1
    let e3 := leadershipStep data validUsers prev current i e2
    upsert m e3

/-- The detector up to (and including) the `reasons.length > 0` filter, in
map-insertion order. -/
def interestingCandidates (stats : List IterationStats)
    (data : List (String × List ℚ)) : List InterestingGame :=
  if stats.length < 3 then []
  else
    let validUsers := data.filter fun u => u.2.length > 0
    if validUsers.length = 0 then []
    else
      ((List.range' 1 (stats.length - 2)).foldl
          (processIteration data validUsers stats) []).filter
        fun e => e.reasons.length > 0

/-- The JS sort comparator `(a, b) => b.totalSignificance - a.totalSignificance`
as a boolean order: `a` may precede `b` iff its total is at least `b`'s. -/
def gameLE (a b : InterestingGame) : Bool :=
  decide (b.totalSignificance ≤ a.totalSignificance)

/-- `detectInterestingGames`: filter, stable-sort descending by total
significance (JS `Array.prototype.sort` is stable), truncate to 10. -/
def detectInterestingGames (stats : List IterationStats)
    (data : List (String × List ℚ)) : List InterestingGame :=
  ((interestingCandidates stats data).mergeSort gameLE).take 10

/-- The chunking loop of `downsampleUserData`: `data.slice(i, i + n)` for
`i = 0, n, 2n, …` (written head-first so the recursion is structural for
every `n`; for `n ≥ 1` the first chunk is `take n`, the rest `drop n`). -/
def dsChunks (n : ℕ) : List ℚ → List (List ℚ)
  | [] => []
  | a :: l => (a :: l.take (n - 1)) :: dsChunks n (l.drop (n - 1))
termination_by l => l.length
decreasing_by
  simp only [List.length_cons, List.length_drop]
  omega

/-- `downsampleUserData(data, n)`: identity for `n ≤ 1`, else each chunk is
replaced by its average rounded to two decimals. -/
def downsampleUserData (data : List ℚ) (n : ℕ) : List ℚ :=
  if n ≤ 1 then data
  else (dsChunks n data).map fun chunk => jsRound2 (chunk.foldl (· + ·) 0 / (chunk.length : ℚ))

/-- The claim's reference definition of downsampling: the `j`-th output is
the two-decimal-rounded mean of `series[j*n : j*n + n]`, with
`⌈len/n⌉ = (len + n - 1) / n` chunks. -/
def downsampleSpec (data : List ℚ) (n : ℕ) : List ℚ :=
  (List.range ((data.length + (n - 1)) / n)).map fun j =>
    let chunk := (data.drop (j * n)).take n
    jsRound2 (chunk.sum / (chunk.length : ℚ))

/-! ### Claim-side definitions for the reconstruction engine -/

/-- The deduction kinds named by the claim: CALL, RAISE, BET and the data
model's ALL-IN token. -/
def claimDeducts (a : String) : Bool :=
  a == "CALL" || a == "RAISE" || a == "BET" || a == "ALL-IN"

/-- The stack value the claim predicts at action cursor `c` for player `pid`. -/
def claimStack (g : GameData) (c pid : ℕ) : ℚ :=
  startingMoneyOf g pid -
    ((((actionList g).take (c + 1)).filter
        fun a => a.player == pid && claimDeducts a.action).map
      ActionSequence.amount).sum

/-- The amounts the code actually deducts for player `pid` at or before
action cursor `c` (CALL / RAISE / BET only), in order. -/
def contribAmts (g : GameData) (pid c : ℕ) : List ℚ :=
  (((actionList g).take (c + 1)).filter
      fun a => a.player == pid && actionDeducts a.action).map
    ActionSequence.amount

/-- A round's action list (`[]` when `action_sequence` is absent). -/
def roundActions (r : GameRound) : List ActionSequence :=
  r.action_sequence.getD []

/-- The flattened index of the last action of round `r` (rounds in record
order). -/
def lastFlatIdx (g : GameData) (r : ℕ) : ℕ :=
  ((g.rounds.take (r + 1)).map fun rd => (roundActions rd.2).length).sum - 1

/-- The per-round deduction totals the round mode applies to player `pid` up
to round cursor `r`, in order. -/
def roundBetAmts (g : GameData) (pid r : ℕ) : List ℚ :=
  ((((g.rounds.take (r + 1)).map fun rd => rd.2.bets).flatten.filter
      fun b => b.1 == pid).map Prod.snd)

/-! ### Generic deduction-loop machinery -/

/-- A single deduction `(pid, amount)` applied to one of the two maps, with
per-key fallback `dflt` (`startingMoneyOf` for stacks, `0` for deltas). -/
def applyUpd (dflt : ℕ → ℚ) (m : List (ℕ × ℚ)) (u : ℕ × ℚ) : List (ℕ × ℚ) :=
  jsSet m u.1 (jsOr (m.lookup u.1) (dflt u.1) - u.2)

/-- The per-player effect of one deduction: JS `(value || dflt) - amount`. -/
def quirkStep (d s amt : ℚ) : ℚ := (if s = 0 then d else s) - amt

/-- The deduction stream generated by a run of action-mode loop iterations. -/
def actionUpds (l : List ActionSequence) : List (ℕ × ℚ) :=
  l.filterMap fun a =>
    if actionDeducts a.action then some (a.player, a.amount) else none

theorem lookup_jsSet_self (m : List (ℕ × ℚ)) (k : ℕ) (v : ℚ) :
    (jsSet m k v).lookup k = some v := by
  induction m with
  | nil => simp [jsSet, List.lookup]
  | cons h t ih =>
      obtain ⟨k', v'⟩ := h
      by_cases hk : k' = k
      · subst hk; simp [jsSet, List.lookup]
      · simp only [jsSet, if_neg hk, List.lookup]
        have : (k == k') = false := by simp [Ne.symm hk]
        simp [this, ih]

theorem lookup_jsSet_ne (m : List (ℕ × ℚ)) (k p : ℕ) (v : ℚ) (h : p ≠ k) :
    (jsSet m k v).lookup p = m.lookup p := by
  induction m with
  | nil =>
      have : (p == k) = false := by simp [h]
      simp [jsSet, List.lookup, this]
  | cons hd t ih =>
      obtain ⟨k', v'⟩ := hd
      by_cases hk : k' = k
      · subst hk
        have : (p == k') = false := by simp [h]
        simp [jsSet, List.lookup, this]
      · simp only [jsSet, if_neg hk, List.lookup]
        cases hpk : (p == k') <;> simp [ih]

theorem lookup_foldl_applyUpd (dflt : ℕ → ℚ) (p : ℕ) (us : List (ℕ × ℚ)) :
    ∀ (m : List (ℕ × ℚ)) (v : ℚ), m.lookup p = some v →
      (us.foldl (applyUpd dflt) m).lookup p =
        some (((us.filter fun u => u.1 == p).map Prod.snd).foldl
          (fun s a => quirkStep (dflt p) s a) v) := by
  induction us with
  | nil => intro m v h; simpa using h
  | cons u us ih =>
      intro m v h
      by_cases hu : u.1 = p
      · have hbeq : (u.1 == p) = true := by simp [hu]
        have hlk : (applyUpd dflt m u).lookup p =
            some (quirkStep (dflt p) v u.2) := by
          simp only [applyUpd]
          rw [hu, h, lookup_jsSet_self]
          simp [jsOr, quirkStep]
        simp only [List.foldl_cons, List.filter_cons, hbeq, List.map_cons,
          List.foldl_cons]
        exact ih _ _ hlk
      · have hbeq : (u.1 == p) = false := by simp [hu]
        have hlk : (applyUpd dflt m u).lookup p = some v := by
          rw [applyUpd, lookup_jsSet_ne _ _ _ _ (Ne.symm hu)]
          exact h
        simp only [List.foldl_cons, List.filter_cons, hbeq]
        exact ih _ _ hlk

theorem foldl_quirkStep (d : ℚ) (l : List ℚ) :
    ∀ v : ℚ, (∀ k, k < l.length → v - (l.take k).sum ≠ 0) →
      l.foldl (fun s a => quirkStep d s a) v = v - l.sum := by
  induction l with
  | nil => intro v _; simp
  | cons a t ih =>
      intro v hz
      have hv : v ≠ 0 := by
        have := hz 0 (by simp)
        simpa using this
      have hstep : quirkStep d v a = v - a := by
        simp [quirkStep, hv]
      simp only [List.foldl_cons, hstep]
      have ht : ∀ k, k < t.length → (v - a) - (t.take k).sum ≠ 0 := by
        intro k hk
        have := hz (k + 1) (by simpa using Nat.succ_lt_succ hk)
        simp only [List.take_succ_cons, List.sum_cons] at this
        intro hc
        apply this
        linarith
      rw [ih (v - a) ht, List.sum_cons]
      ring

theorem quirkStep_zero (s a : ℚ) : quirkStep 0 s a = s - a := by
  by_cases h : s = 0 <;> simp [quirkStep, h]

theorem foldl_sub (l : List ℚ) : ∀ v : ℚ, l.foldl (fun s a => s - a) v = v - l.sum := by
  induction l with
  | nil => intro v; simp
  | cons a t ih =>
      intro v
      simp only [List.foldl_cons, ih, List.sum_cons]
      ring

theorem foldl_quirkStep_zero (l : List ℚ) (v : ℚ) :
    l.foldl (fun s a => quirkStep 0 s a) v = v - l.sum := by
  simp only [quirkStep_zero]
  exact foldl_sub l v

theorem actionUpds_cons_deduct {a : ActionSequence} (t : List ActionSequence)
    (hd : actionDeducts a.action) :
    actionUpds (a :: t) = (a.player, a.amount) :: actionUpds t := by
  simp [actionUpds, hd]

theorem actionUpds_cons_skip {a : ActionSequence} (t : List ActionSequence)
    (hd : ¬actionDeducts a.action) :
    actionUpds (a :: t) = actionUpds t := by
  simp [actionUpds, hd]

theorem stackMap_foldl_applyAction (g : GameData) (l : List ActionSequence) :
    ∀ s : StackState,
      (l.foldl (applyAction g) s).stackMap =
        (actionUpds l).foldl (applyUpd (startingMoneyOf g)) s.stackMap := by
  induction l with
  | nil => intro s; rfl
  | cons a t ih =>
      intro s
      simp only [List.foldl_cons]
      rw [ih]
      by_cases hd : actionDeducts a.action
      · rw [actionUpds_cons_deduct t hd]
        simp only [List.foldl_cons]
        congr 1
        simp [applyAction, hd, applyUpd]
      · rw [actionUpds_cons_skip t hd]
        congr 1
        simp [applyAction, hd]

theorem deltaMap_foldl_applyAction (g : GameData) (l : List ActionSequence) :
    ∀ s : StackState,
      (l.foldl (applyAction g) s).deltaMap =
        (actionUpds l).foldl (applyUpd fun _ => (0 : ℚ)) s.deltaMap := by
  induction l with
  | nil => intro s; rfl
  | cons a t ih =>
      intro s
      simp only [List.foldl_cons]
      rw [ih]
      by_cases hd : actionDeducts a.action
      · rw [actionUpds_cons_deduct t hd]
        simp only [List.foldl_cons]
        congr 1
        simp [applyAction, hd, applyUpd]
      · rw [actionUpds_cons_skip t hd]
        congr 1
        simp [applyAction, hd]

theorem actionUpds_filter_map (p : ℕ) (l : List ActionSequence) :
    ((actionUpds l).filter fun u => u.1 == p).map Prod.snd =
      (l.filter fun a => a.player == p && actionDeducts a.action).map
        ActionSequence.amount := by
  induction l with
  | nil => rfl
  | cons a t ih =>
      by_cases hd : actionDeducts a.action
      · rw [actionUpds_cons_deduct t hd]
        by_cases hp : a.player = p
        · simp [List.filter_cons, hp, hd, ih]
        · simp [List.filter_cons, hp, hd, ih]
      · rw [actionUpds_cons_skip t hd]
        simp [List.filter_cons, hd, ih]

theorem lookup_initState_aux (g : GameData) (ps : List (ℕ × String)) :
    ∀ (s : StackState) (p : ℕ),
      ((ps.foldl
          (fun s q =>
            { stackMap := jsSet s.stackMap q.1 (startingMoneyOf g q.1),
              deltaMap := jsSet s.deltaMap q.1 0 })
          s).stackMap.lookup p =
        if p ∈ ps.map Prod.fst then some (startingMoneyOf g p)
        else s.stackMap.lookup p) ∧
      ((ps.foldl
          (fun s q =>
            { stackMap := jsSet s.stackMap q.1 (startingMoneyOf g q.1),
              deltaMap := jsSet s.deltaMap q.1 0 })
          s).deltaMap.lookup p =
        if p ∈ ps.map Prod.fst then some 0 else s.deltaMap.lookup p) := by
  induction ps with
  | nil => intro s p; simp
  | cons q t ih =>
      intro s p
      simp only [List.foldl_cons, List.map_cons, List.mem_cons]
      obtain ⟨ih1, ih2⟩ := ih
        { stackMap := jsSet s.stackMap q.1 (startingMoneyOf g q.1),
          deltaMap := jsSet s.deltaMap q.1 0 } p
      constructor
      · rw [ih1]
        by_cases ht : p ∈ t.map Prod.fst
        · simp [ht]
        · by_cases hq : p = q.1
          · subst hq
            simp [ht, lookup_jsSet_self]
          · simp only [if_neg ht]
            have : ¬(p = q.1 ∨ p ∈ t.map Prod.fst) := by
              intro hc; rcases hc with hc | hc
              · exact hq hc
              · exact ht hc
            simp only [if_neg this]
            exact lookup_jsSet_ne _ _ _ _ hq
      · rw [ih2]
        by_cases ht : p ∈ t.map Prod.fst
        · simp [ht]
        · by_cases hq : p = q.1
          · subst hq
            simp [ht, lookup_jsSet_self]
          · simp only [if_neg ht]
            have : ¬(p = q.1 ∨ p ∈ t.map Prod.fst) := by
              intro hc; rcases hc with hc | hc
              · exact hq hc
              · exact ht hc
            simp only [if_neg this]
            exact lookup_jsSet_ne _ _ _ _ hq

theorem lookup_initState (g : GameData) (p : ℕ)
    (hp : p ∈ g.playerNames.map Prod.fst) :
    (initState g).stackMap.lookup p = some (startingMoneyOf g p) ∧
      (initState g).deltaMap.lookup p = some 0 := by
  obtain ⟨h1, h2⟩ := lookup_initState_aux g g.playerNames ⟨[], []⟩ p
  exact ⟨by rw [initState, h1, if_pos hp], by rw [initState, h2, if_pos hp]⟩

theorem stateAction_lookup (g : GameData) (c p : ℕ)
    (hp : p ∈ g.playerNames.map Prod.fst)
    (hz : ∀ k, k < (contribAmts g p c).length →
      startingMoneyOf g p - ((contribAmts g p c).take k).sum ≠ 0) :
    (stateAction g c).stackMap.lookup p =
        some (startingMoneyOf g p - (contribAmts g p c).sum) ∧
      (stateAction g c).deltaMap.lookup p = some (0 - (contribAmts g p c).sum) := by
  obtain ⟨h1, h2⟩ := lookup_initState g p hp
  constructor
  · rw [stateAction, stackMap_foldl_applyAction,
      lookup_foldl_applyUpd (startingMoneyOf g) p _ _ _ h1,
      actionUpds_filter_map]
    rw [show ((((actionList g).take (c + 1)).filter
        fun a => a.player == p && actionDeducts a.action).map
        ActionSequence.amount) = contribAmts g p c from rfl]
    rw [foldl_quirkStep _ _ _ hz]
  · rw [stateAction, deltaMap_foldl_applyAction,
      lookup_foldl_applyUpd (fun _ => (0 : ℚ)) p _ _ _ h2,
      actionUpds_filter_map]
    rw [show ((((actionList g).take (c + 1)).filter
        fun a => a.player == p && actionDeducts a.action).map
        ActionSequence.amount) = contribAmts g p c from rfl]
    rw [foldl_quirkStep_zero]

/-! ### Concrete records used by witnesses and counterexamples -/

/-- The spec's worked example round: `[{player:0, RAISE 20}, {player:1, CALL 20}]`. -/
def exampleRound : GameRound :=
  { bets := [(0, 20), (1, 20)],
    action_sequence := some [⟨"RAISE", 20, 0, 0⟩, ⟨"CALL", 20, 1, 1⟩] }

/-- Money table for the worked example, extended with a final-money split in
which player 0 wins the 40-chip pot. -/
def pmEx : PlayerMoney :=
  { startingMoney := [(1, 10000), (2, 10000)],
    finalMoney := [(1, 10020), (2, 9980)] }

/-- The spec's worked example hand. -/
def gEx : GameData :=
  { rounds := [(0, exampleRound)]
    playerNames := [(0, "p0"), (1, "p1")]
    finalBoard := ["Ah", "Kh", "Qh", "Jh", "Th"]
    playerIdToUsername := none
    playerMoney := some pmEx }

/-- A hand whose only action carries the spec's ALL-IN token. -/
def gC1 : GameData :=
  { rounds := [(0, { bets := [], action_sequence := some [⟨"ALL-IN", 20, 0, 0⟩] })]
    playerNames := [(0, "p0")]
    finalBoard := []
    playerIdToUsername := none
    playerMoney := some ⟨[(1, 10000)], []⟩ }

/-- C1: the claim predicts that an ALL-IN action deducts its amount; the
code's action-mode loop matches only CALL / RAISE / BET, so the stack stays
at 10000 where the claim says 9980. -/
theorem C1_counterexample :
    claimStack gC1 0 0 = 9980 ∧
      (stateAction gC1 0).stackMap.lookup 0 = some 10000 ∧
      (stateAction gC1 0).stackMap.lookup 0 ≠ some (claimStack gC1 0 0) := by
  simp +decide [claimStack, stateAction, actionList, gC1, startingMoneyOf, jsOr,
    initState, applyAction, actionDeducts, claimDeducts, jsSet, List.lookup]
  norm_num

/-- C1 (amended): at every action cursor `c` the reconstructed stack of a
listed player `p` is `startingMoney(p) − Σ(amounts of p's CALL/RAISE/BET
actions at or before c)` — ALL-IN, FOLD and CHECK contribute zero — and
`delta = stack − startingMoney(p)`, provided no intermediate reconstructed
stack value is exactly 0 (a JS `|| startingMoney` fallback would then reset
the running stack). -/
theorem C1_stack_delta (g : GameData) (c p : ℕ)
    (hp : p ∈ g.playerNames.map Prod.fst)
    (hz : ∀ k, k < (contribAmts g p c).length →
      startingMoneyOf g p - ((contribAmts g p c).take k).sum ≠ 0) :
    (stateAction g c).stackMap.lookup p =
        some (startingMoneyOf g p - (contribAmts g p c).sum) ∧
      (stateAction g c).deltaMap.lookup p =
        some ((startingMoneyOf g p - (contribAmts g p c).sum) - startingMoneyOf g p) := by
  obtain ⟨h1, h2⟩ := stateAction_lookup g c p hp hz
  refine ⟨h1, ?_⟩
  rw [h2]
  congr 1
  ring

/-- C1 witness: the spec's worked example at its final cursor gives player 0
stack 9980 and delta −20. -/
theorem C1_stack_delta_witness :
    (stateAction gEx 1).stackMap.lookup 0 =
        some (startingMoneyOf gEx 0 - (contribAmts gEx 0 1).sum) ∧
      (stateAction gEx 1).deltaMap.lookup 0 =
        some ((startingMoneyOf gEx 0 - (contribAmts gEx 0 1).sum) - startingMoneyOf gEx 0) :=
  C1_stack_delta gEx 1 0 (by decide)
    (by
      simp +decide [contribAmts, actionList, gEx, exampleRound, startingMoneyOf,
        jsOr, pmEx, actionDeducts, List.lookup] <;>
        norm_num)

/-- C2: replaying the worked example to the final cursor leaves player 0 at
9980, while `finalMoney` records 10020 (the winner's pot is never added back
by the replay loop), so the claim fails as stated. -/
theorem C2_counterexample :
    gEx.playerMoney = some pmEx ∧
      pmEx.finalMoney.lookup (0 + 1) = some 10020 ∧
      (stateAction gEx ((actionList gEx).length - 1)).stackMap.lookup 0 = some 9980 ∧
      (stateAction gEx ((actionList gEx).length - 1)).stackMap.lookup 0 ≠
        pmEx.finalMoney.lookup (0 + 1) := by
  refine ⟨rfl, by decide, ?_, ?_⟩ <;>
    simp +decide [stateAction, actionList, gEx, exampleRound, startingMoneyOf,
      jsOr, pmEx, initState, applyAction, actionDeducts, jsSet, List.lookup] <;>
    norm_num

/-- C2 (amended): replaying every action to the final cursor reproduces a
player's `finalMoney` entry exactly when that entry equals
`startingMoney(p) − Σ(p's CALL/RAISE/BET amounts over the whole hand)` (with
the same no-intermediate-zero proviso as C1). -/
theorem C2_final_replay (g : GameData) (pm : PlayerMoney) (p : ℕ)
    (_hpm : g.playerMoney = some pm)
    (hp : p ∈ g.playerNames.map Prod.fst)
    (hz : ∀ k, k < (contribAmts g p ((actionList g).length - 1)).length →
      startingMoneyOf g p -
        ((contribAmts g p ((actionList g).length - 1)).take k).sum ≠ 0)
    (hfin : pm.finalMoney.lookup (p + 1) =
      some (startingMoneyOf g p -
        (contribAmts g p ((actionList g).length - 1)).sum)) :
    (stateAction g ((actionList g).length - 1)).stackMap.lookup p =
      pm.finalMoney.lookup (p + 1) := by
  rw [hfin, (stateAction_lookup g _ p hp hz).1]

/-- C2 witness: player 1 of the worked example lost exactly its 20-chip call,
so the replay's 9980 matches `finalMoney[2]`. -/
theorem C2_final_replay_witness :
    (stateAction gEx ((actionList gEx).length - 1)).stackMap.lookup 1 =
      pmEx.finalMoney.lookup (1 + 1) :=
  C2_final_replay gEx pmEx 1 rfl (by decide)
    (by
      simp +decide [contribAmts, actionList, gEx, exampleRound, startingMoneyOf,
        jsOr, pmEx, actionDeducts, List.lookup] <;>
        norm_num)
    (by
      simp +decide [contribAmts, actionList, gEx, exampleRound, startingMoneyOf,
        jsOr, pmEx, actionDeducts, List.lookup] <;>
        norm_num)

/-! ### Round-mode machinery and the cursor-mode comparison -/

theorem roundKeysSorted_of_sorted (g : GameData)
    (hs : (g.rounds.map Prod.fst).Pairwise (· < ·)) :
    roundKeysSorted g = g.rounds.map Prod.fst :=
  List.mergeSort_of_sorted (hs.imp fun h => decide_eq_true (Nat.le_of_lt h))

theorem lookup_rounds_of_nodup (l : List (ℕ × GameRound))
    (hnd : (l.map Prod.fst).Nodup) :
    ∀ e ∈ l, l.lookup e.1 = some e.2 := by
  induction l with
  | nil => intro e he; cases he
  | cons h t ih =>
      intro e he
      rcases List.mem_cons.mp he with he | he
      · subst he; simp [List.lookup]
      · have hne : h.1 ≠ e.1 := by
          intro hc
          have : e.1 ∈ t.map Prod.fst := List.mem_map_of_mem Prod.fst he
          rw [List.map_cons, List.nodup_cons] at hnd
          exact hnd.1 (hc ▸ this)
        have hbeq : (e.1 == h.1) = false := by simp [Ne.symm hne]
        rw [List.map_cons, List.nodup_cons] at hnd
        simp only [List.lookup, hbeq]
        exact ih hnd.2 e he

theorem foldl_applyRound_eq (g : GameData) (rs : List (ℕ × GameRound))
    (hlk : ∀ e ∈ rs, g.rounds.lookup e.1 = some e.2) :
    ∀ s, (rs.map Prod.fst).foldl (applyRound g) s =
      rs.foldl (fun s rd => rd.2.bets.foldl (applyBet g) s) s := by
  induction rs with
  | nil => intro s; rfl
  | cons e t ih =>
      intro s
      simp only [List.map_cons, List.foldl_cons]
      have h1 : applyRound g s e.1 = e.2.bets.foldl (applyBet g) s := by
        rw [applyRound, hlk e (List.mem_cons_self e t)]
      rw [h1]
      exact ih (fun e' he' => hlk e' (List.mem_cons_of_mem _ he')) _

theorem stackMap_foldl_applyBet (g : GameData) (bs : List (ℕ × ℚ)) :
    ∀ s : StackState,
      (bs.foldl (applyBet g) s).stackMap =
        bs.foldl (applyUpd (startingMoneyOf g)) s.stackMap := by
  induction bs with
  | nil => intro s; rfl
  | cons b t ih => intro s; simp only [List.foldl_cons]; rw [ih]; rfl

theorem deltaMap_foldl_applyBet (g : GameData) (bs : List (ℕ × ℚ)) :
    ∀ s : StackState,
      (bs.foldl (applyBet g) s).deltaMap =
        bs.foldl (applyUpd fun _ => (0 : ℚ)) s.deltaMap := by
  induction bs with
  | nil => intro s; rfl
  | cons b t ih => intro s; simp only [List.foldl_cons]; rw [ih]; rfl

theorem stackMap_foldl_rounds (g : GameData) (rs : List (ℕ × GameRound)) :
    ∀ s : StackState,
      (rs.foldl (fun s rd => rd.2.bets.foldl (applyBet g) s) s).stackMap =
        ((rs.map fun rd => rd.2.bets).flatten).foldl
          (applyUpd (startingMoneyOf g)) s.stackMap := by
  induction rs with
  | nil => intro s; rfl
  | cons rd t ih =>
      intro s
      simp only [List.foldl_cons, List.map_cons, List.flatten_cons,
        List.foldl_append]
      rw [ih, stackMap_foldl_applyBet]

theorem deltaMap_foldl_rounds (g : GameData) (rs : List (ℕ × GameRound)) :
    ∀ s : StackState,
      (rs.foldl (fun s rd => rd.2.bets.foldl (applyBet g) s) s).deltaMap =
        ((rs.map fun rd => rd.2.bets).flatten).foldl
          (applyUpd fun _ => (0 : ℚ)) s.deltaMap := by
  induction rs with
  | nil => intro s; rfl
  | cons rd t ih =>
      intro s
      simp only [List.foldl_cons, List.map_cons, List.flatten_cons,
        List.foldl_append]
      rw [ih, deltaMap_foldl_applyBet]

theorem actionList_eq_flatten_aux (rs : List (ℕ × GameRound)) :
    ∀ acc : List ActionSequence,
      rs.foldl (fun acc r => acc ++ r.2.action_sequence.getD []) acc =
        acc ++ (rs.map fun rd => roundActions rd.2).flatten := by
  induction rs with
  | nil => intro acc; simp
  | cons rd t ih =>
      intro acc
      simp only [List.foldl_cons, List.map_cons, List.flatten_cons, ih,
        roundActions, List.append_assoc]

theorem actionList_eq_flatten (g : GameData) :
    actionList g = (g.rounds.map fun rd => roundActions rd.2).flatten := by
  rw [actionList, actionList_eq_flatten_aux, List.nil_append]

theorem flatten_take_eq {α : Type} (L : List (List α)) :
    ∀ i, L.flatten.take (((L.take i).map List.length).sum) = (L.take i).flatten := by
  induction L with
  | nil => intro i; simp
  | cons h t ih =>
      intro i
      cases i with
      | zero => simp
      | succ n =>
          simp only [List.take_succ_cons, List.map_cons, List.sum_cons,
            List.flatten_cons, List.take_append, ih]

theorem sum_flatten_filter_map {α : Type} (cond : α → Bool) (f : α → ℚ)
    (LL : List (List α)) :
    ((LL.flatten.filter cond).map f).sum =
      (LL.map fun l => ((l.filter cond).map f).sum).sum := by
  induction LL with
  | nil => rfl
  | cons h t ih =>
      simp only [List.flatten_cons, List.filter_append, List.map_append,
        List.sum_append, List.map_cons, List.sum_cons, ih]

/-- Player 0 checks in round 0 (while `bets` charges 50) and folds in
round 1: round mode and action mode disagree at the round-0 boundary on both
the stack and the folded flag. -/
def gC3 : GameData :=
  { rounds :=
      [(0, { bets := [(0, 50)], action_sequence := some [⟨"CHECK", 0, 0, 0⟩] }),
       (1, { bets := [], action_sequence := some [⟨"FOLD", 0, 0, 1⟩] })]
    playerNames := [(0, "a")]
    finalBoard := []
    playerIdToUsername := none
    playerMoney := none }

/-- C3: at the cursor "last action of round 0" the two modes differ — round
mode charges the `bets` table (stack 9950) while action mode charges no
CHECK (stack 10000), and round mode reports the round-1 fold already at
round cursor 0. -/
theorem C3_counterexample :
    lastFlatIdx gC3 0 = 0 ∧
      (stateRound gC3 0).stackMap.lookup 0 = some 9950 ∧
      (stateAction gC3 0).stackMap.lookup 0 = some 10000 ∧
      (stateRound gC3 0).stackMap.lookup 0 ≠ (stateAction gC3 0).stackMap.lookup 0 ∧
      hasPlayerFolded gC3 ViewMode.round 0 0 = true ∧
      hasPlayerFolded gC3 ViewMode.action 0 0 = false := by
  have hks : roundKeysSorted gC3 = [0, 1] :=
    List.mergeSort_of_sorted (by decide)
  refine ⟨by decide, ?_, ?_, ?_, by decide, by decide⟩ <;>
    (try simp only [stateRound, hks]) <;>
    simp +decide [stateAction, actionList, gC3, startingMoneyOf,
      jsOr, initState, applyRound, applyBet, applyAction, actionDeducts, jsSet,
      List.lookup] <;>
    norm_num

/-- C3 (amended): with chronologically keyed rounds, the two cursor modes
agree on stack and delta at the boundary "last action of round `r`" exactly
when each round's `bets` table charges every player the sum of that player's
CALL/RAISE/BET amounts in the round's action sequence (with C1's
no-intermediate-zero proviso on both deduction streams); the folded/all-in
flags of round mode are computed over the whole hand regardless of the round
cursor, so they agree with action mode only at the final cursor. -/
theorem C3_round_boundary (g : GameData) (r p : ℕ)
    (hsort : (g.rounds.map Prod.fst).Pairwise (· < ·))
    (hr : r < g.rounds.length)
    (hne : roundActions (g.rounds.get ⟨r, hr⟩).2 ≠ [])
    (hp : p ∈ g.playerNames.map Prod.fst)
    (hbets : ∀ rd ∈ g.rounds,
      ((rd.2.bets.filter fun b => b.1 == p).map Prod.snd).sum =
        (((roundActions rd.2).filter fun a =>
            a.player == p && actionDeducts a.action).map ActionSequence.amount).sum)
    (hz1 : ∀ k, k < (contribAmts g p (lastFlatIdx g r)).length →
      startingMoneyOf g p - ((contribAmts g p (lastFlatIdx g r)).take k).sum ≠ 0)
    (hz2 : ∀ k, k < (roundBetAmts g p r).length →
      startingMoneyOf g p - ((roundBetAmts g p r).take k).sum ≠ 0) :
    ((stateRound g r).stackMap.lookup p =
        (stateAction g (lastFlatIdx g r)).stackMap.lookup p ∧
      (stateRound g r).deltaMap.lookup p =
        (stateAction g (lastFlatIdx g r)).deltaMap.lookup p) ∧
      (∀ c, hasPlayerFolded g ViewMode.round c p =
        hasPlayerFolded g ViewMode.action ((actionList g).length - 1) p) ∧
      (∀ c, isPlayerAllIn g ViewMode.round c p =
        isPlayerAllIn g ViewMode.action ((actionList g).length - 1) p) := by
  -- the flat prefix up to the last action of round r is the flattening of
  -- the first r+1 rounds
  have hS : lastFlatIdx g r + 1 =
      ((g.rounds.take (r + 1)).map fun rd => (roundActions rd.2).length).sum := by
    rw [lastFlatIdx]
    have hmem : (roundActions (g.rounds.get ⟨r, hr⟩).2).length ∈
        (g.rounds.take (r + 1)).map fun rd => (roundActions rd.2).length := by
      refine List.mem_map_of_mem _ ?_
      have h1 : (g.rounds.take (r + 1)).length = r + 1 := by
        rw [List.length_take]
        omega
      have h2 : r < (g.rounds.take (r + 1)).length := by omega
      have h3 : (g.rounds.take (r + 1)).get ⟨r, h2⟩ = g.rounds.get ⟨r, hr⟩ := by
        simp [List.get_take]
      rw [← h3]
      exact List.get_mem _ _ h2
    have hx : 1 ≤ (roundActions (g.rounds.get ⟨r, hr⟩).2).length := by
      cases h : roundActions (g.rounds.get ⟨r, hr⟩).2 with
      | nil => exact absurd h hne
      | cons _ _ => simp
    have hpos :=
      List.single_le_sum (l := (g.rounds.take (r + 1)).map
        fun rd => (roundActions rd.2).length) (fun x _ => Nat.zero_le x) _ hmem
    omega
  have htake : (actionList g).take (lastFlatIdx g r + 1) =
      ((g.rounds.take (r + 1)).map fun rd => roundActions rd.2).flatten := by
    rw [actionList_eq_flatten, hS]
    have h2 := flatten_take_eq (g.rounds.map fun rd => roundActions rd.2) (r + 1)
    simp only [← List.map_take, List.map_map, Function.comp] at h2
    exact h2
  -- both deduction streams sum to the same total
  have hsums : (roundBetAmts g p r).sum = (contribAmts g p (lastFlatIdx g r)).sum := by
    have hact : contribAmts g p (lastFlatIdx g r) =
        ((((g.rounds.take (r + 1)).map fun rd => roundActions rd.2).flatten.filter
            fun a => a.player == p && actionDeducts a.action).map
          ActionSequence.amount) := by
      rw [contribAmts, htake]
    have h3 := sum_flatten_filter_map
      (fun a => a.player == p && actionDeducts a.action) ActionSequence.amount
      ((g.rounds.take (r + 1)).map fun rd => roundActions rd.2)
    have h4 := sum_flatten_filter_map (fun b => b.1 == p) Prod.snd
      ((g.rounds.take (r + 1)).map fun rd => rd.2.bets)
    have h5 : ((g.rounds.take (r + 1)).map fun rd =>
          ((rd.2.bets.filter fun b => b.1 == p).map Prod.snd).sum) =
        (g.rounds.take (r + 1)).map fun rd =>
          (((roundActions rd.2).filter fun a =>
              a.player == p && actionDeducts a.action).map
            ActionSequence.amount).sum :=
      List.map_congr_left fun rd hrd => hbets rd (List.take_subset _ _ hrd)
    rw [hact, h3, show roundBetAmts g p r =
      (((g.rounds.take (r + 1)).map fun rd => rd.2.bets).flatten.filter
          fun b => b.1 == p).map Prod.snd from rfl, h4]
    rw [List.map_map, List.map_map]
    exact congrArg List.sum h5
  -- round-mode value
  have hnd : (g.rounds.map Prod.fst).Nodup := hsort.imp fun h => Nat.ne_of_lt h
  have hlkups : ∀ e ∈ g.rounds.take (r + 1), g.rounds.lookup e.1 = some e.2 :=
    fun e he => lookup_rounds_of_nodup g.rounds hnd e (List.take_subset _ _ he)
  have hkeys := roundKeysSorted_of_sorted g hsort
  have hround1 : (stateRound g r).stackMap.lookup p =
      some (startingMoneyOf g p - (roundBetAmts g p r).sum) := by
    rw [stateRound, hkeys, ← List.map_take, foldl_applyRound_eq g _ hlkups,
      stackMap_foldl_rounds,
      lookup_foldl_applyUpd _ p _ _ _ (lookup_initState g p hp).1]
    rw [show (((((g.rounds.take (r + 1)).map fun rd => rd.2.bets).flatten).filter
        fun u => u.1 == p).map Prod.snd) = roundBetAmts g p r from rfl]
    rw [foldl_quirkStep _ _ _ hz2]
  have hround2 : (stateRound g r).deltaMap.lookup p =
      some (0 - (roundBetAmts g p r).sum) := by
    rw [stateRound, hkeys, ← List.map_take, foldl_applyRound_eq g _ hlkups,
      deltaMap_foldl_rounds,
      lookup_foldl_applyUpd _ p _ _ _ (lookup_initState g p hp).2]
    rw [show (((((g.rounds.take (r + 1)).map fun rd => rd.2.bets).flatten).filter
        fun u => u.1 == p).map Prod.snd) = roundBetAmts g p r from rfl]
    rw [foldl_quirkStep_zero]
  obtain ⟨hact1, hact2⟩ := stateAction_lookup g (lastFlatIdx g r) p hp hz1
  refine ⟨⟨?_, ?_⟩, fun c => rfl, fun c => rfl⟩
  · rw [hround1, hact1, hsums]
  · rw [hround2, hact2, hsums]

/-- C3 witness: the worked example at its only round boundary, player 0. -/
theorem C3_round_boundary_witness :
    ((stateRound gEx 0).stackMap.lookup 0 =
        (stateAction gEx (lastFlatIdx gEx 0)).stackMap.lookup 0 ∧
      (stateRound gEx 0).deltaMap.lookup 0 =
        (stateAction gEx (lastFlatIdx gEx 0)).deltaMap.lookup 0) ∧
      (∀ c, hasPlayerFolded gEx ViewMode.round c 0 =
        hasPlayerFolded gEx ViewMode.action ((actionList gEx).length - 1) 0) ∧
      (∀ c, isPlayerAllIn gEx ViewMode.round c 0 =
        isPlayerAllIn gEx ViewMode.action ((actionList gEx).length - 1) 0) :=
  C3_round_boundary gEx 0 0 (by decide) (by decide) (by decide) (by decide)
    (by
      intro rd hrd
      simp only [gEx, List.mem_singleton] at hrd
      subst hrd
      simp +decide [exampleRound, roundActions, actionDeducts] <;> norm_num)
    (by
      simp +decide [contribAmts, lastFlatIdx, actionList, gEx, exampleRound,
        roundActions, startingMoneyOf, jsOr, pmEx, actionDeducts, List.lookup] <;>
        norm_num)
    (by
      simp +decide [roundBetAmts, gEx, exampleRound, startingMoneyOf, jsOr, pmEx,
        List.lookup] <;>
        norm_num)

/-- Round 0 holds the two all-in spellings, round 1 the fold. -/
def gC4 : GameData :=
  { rounds :=
      [(0, { bets := [],
             action_sequence := some [⟨"ALL IN", 50, 0, 0⟩, ⟨"ALL-IN", 50, 1, 1⟩] }),
       (1, { bets := [], action_sequence := some [⟨"FOLD", 0, 0, 2⟩] })]
    playerNames := [(0, "a"), (1, "b")]
    finalBoard := []
    playerIdToUsername := none
    playerMoney := none }

/-- C4: at round cursor 0 the code already reports player 0 folded although
the fold happens in round 1 (round mode ignores the cursor), and player 1's
action carrying the data model's `ALL-IN` token is not flagged (the code
matches only the literal `'ALL IN'`). -/
theorem C4_counterexample :
    hasPlayerFolded gC4 ViewMode.round 0 0 = true ∧
      (¬ ∃ a ∈ ((gC4.rounds.take 1).map fun rd => roundActions rd.2).flatten,
        a.player = 0 ∧ a.action = "FOLD") ∧
      isPlayerAllIn gC4 ViewMode.action 1 1 = false ∧
      (∃ a ∈ (actionList gC4).take 2, a.player = 1 ∧ a.action = "ALL-IN") := by
  decide

/-- C4 (amended): in action mode the folded flag holds iff some `FOLD` by the
player occurs at or before the cursor, and the all-in flag iff some action
with the literal `'ALL IN'` token does; in round mode both flags are
evaluated over the entire action list regardless of the cursor; both flags
are monotone (sticky) in the action cursor. -/
theorem C4_flags (g : GameData) (p : ℕ) :
    (∀ c, hasPlayerFolded g ViewMode.action c p = true ↔
      ∃ a ∈ (actionList g).take (c + 1), a.player = p ∧ a.action = "FOLD") ∧
      (∀ c, isPlayerAllIn g ViewMode.action c p = true ↔
        ∃ a ∈ (actionList g).take (c + 1), a.player = p ∧ a.action = "ALL IN") ∧
      (∀ c, hasPlayerFolded g ViewMode.round c p =
        hasPlayerFolded g ViewMode.action ((actionList g).length - 1) p) ∧
      (∀ c, isPlayerAllIn g ViewMode.round c p =
        isPlayerAllIn g ViewMode.action ((actionList g).length - 1) p) ∧
      (∀ c c', c ≤ c' → hasPlayerFolded g ViewMode.action c p = true →
        hasPlayerFolded g ViewMode.action c' p = true) ∧
      (∀ c c', c ≤ c' → isPlayerAllIn g ViewMode.action c p = true →
        isPlayerAllIn g ViewMode.action c' p = true) := by
  have hmono : ∀ (c c' : ℕ), c ≤ c' → ∀ a : ActionSequence,
      a ∈ (actionList g).take (c + 1) → a ∈ (actionList g).take (c' + 1) := by
    intro c c' hcc a ha
    have h1 : (actionList g).take (c + 1) =
        ((actionList g).take (c' + 1)).take (c + 1) := by
      rw [List.take_take, min_eq_left (by omega)]
    rw [h1] at ha
    exact List.take_subset _ _ ha
  have hiff : ∀ (tok : String) (c : ℕ),
      (((actionList g).take (flagCursor g ViewMode.action c + 1)).any
        (fun a => a.player == p && a.action == tok)) = true ↔
      ∃ a ∈ (actionList g).take (c + 1), a.player = p ∧ a.action = tok := by
    intro tok c
    rw [List.any_eq_true]
    constructor
    · rintro ⟨a, ha, hpa⟩
      exact ⟨a, ha, by simpa using hpa⟩
    · rintro ⟨a, ha, h1, h2⟩
      exact ⟨a, ha, by simp [h1, h2]⟩
  have hflag : ∀ (tok : String) (c : ℕ),
      ¬(actionList g).length = 0 →
      ((if (actionList g).length = 0 then false
        else ((actionList g).take (flagCursor g ViewMode.action c + 1)).any
          (fun a => a.player == p && a.action == tok)) = true ↔
      ∃ a ∈ (actionList g).take (c + 1), a.player = p ∧ a.action = tok) := by
    intro tok c h0
    rw [if_neg h0]
    exact hiff tok c
  have hempty : (actionList g).length = 0 → actionList g = [] :=
    List.length_eq_zero.mp
  refine ⟨?_, ?_, fun c => rfl, fun c => rfl, ?_, ?_⟩
  · intro c
    by_cases h0 : (actionList g).length = 0
    · simp [hasPlayerFolded, h0, hempty h0]
    · exact hflag "FOLD" c h0
  · intro c
    by_cases h0 : (actionList g).length = 0
    · simp [isPlayerAllIn, h0, hempty h0]
    · exact hflag "ALL IN" c h0
  · intro c c' hcc hc
    by_cases h0 : (actionList g).length = 0
    · rw [hasPlayerFolded, if_pos h0] at hc; cases hc
    · rw [hasPlayerFolded, if_neg h0] at hc ⊢
      rw [List.any_eq_true] at hc ⊢
      obtain ⟨a, ha, hpa⟩ := hc
      exact ⟨a, hmono c c' hcc a ha, hpa⟩
  · intro c c' hcc hc
    by_cases h0 : (actionList g).length = 0
    · rw [isPlayerAllIn, if_pos h0] at hc; cases hc
    · rw [isPlayerAllIn, if_neg h0] at hc ⊢
      rw [List.any_eq_true] at hc ⊢
      obtain ⟨a, ha, hpa⟩ := hc
      exact ⟨a, hmono c c' hcc a ha, hpa⟩

/-- C4 witness: in `gC4`, player 0's fold (flat index 2) and `'ALL IN'`
action (flat index 0) are both visible at action cursor 2. -/
theorem C4_flags_witness :
    hasPlayerFolded gC4 ViewMode.action 2 0 = true ∧
      isPlayerAllIn gC4 ViewMode.action 2 0 = true :=
  ⟨((C4_flags gC4 0).1 2).mpr ⟨⟨"FOLD", 0, 0, 2⟩, by decide, rfl, rfl⟩,
   ((C4_flags gC4 0).2.1 2).mpr ⟨⟨"ALL IN", 50, 0, 0⟩, by decide, rfl, rfl⟩⟩

/-- Player 0 has starting money 500 recorded and no final-money entry. -/
def gC5 : GameData :=
  { rounds := []
    playerNames := [(0, "a")]
    finalBoard := []
    playerIdToUsername := none
    playerMoney := some ⟨[(1, 500)], []⟩ }

/-- C5: with `finalMoney[1]` missing, the claim's 10,000 default predicts
`delta = 10000 − 500 = 9500` (a winner), but `getWinnerInfo` substitutes 0
and computes `delta = −500`, so the player lands in the losers list. -/
theorem C5_counterexample :
    winnerDelta ⟨[(1, 500)], []⟩ 0 = -500 ∧
      jsOr ((PlayerMoney.finalMoney ⟨[(1, 500)], []⟩).lookup (0 + 1)) 10000 -
          jsOr ((PlayerMoney.startingMoney ⟨[(1, 500)], []⟩).lookup (0 + 1)) 10000 =
        9500 ∧
      (getWinnerInfo gC5).map (fun w => (w.1.length, w.2.length)) = some (0, 1) := by
  refine ⟨?_, ?_, ?_⟩ <;>
    norm_num [getWinnerInfo, gC5, winnerDelta, jsOr, getPlayerUsername, jsOrStr,
      List.lookup, List.filterMap]

/-- C5 (amended): stack reconstruction substitutes 10,000 for a missing
`startingMoney` entry, but the winner/loser partition substitutes 0 for
missing entries on both sides: its per-player delta is
`(finalMoney[p+1] || 0) − (startingMoney[p+1] || 0)` (0 when both are
missing), and `getWinnerInfo` partitions `playerNames` by the sign of that
delta. -/
theorem C5_defaults (g : GameData) (pm : PlayerMoney) (p : ℕ)
    (hpm : g.playerMoney = some pm) :
    (pm.startingMoney.lookup (p + 1) = none → startingMoneyOf g p = 10000) ∧
      winnerDelta pm p =
        jsOr (pm.finalMoney.lookup (p + 1)) 0 -
          jsOr (pm.startingMoney.lookup (p + 1)) 0 ∧
      (pm.finalMoney.lookup (p + 1) = none →
        pm.startingMoney.lookup (p + 1) = none → winnerDelta pm p = 0) ∧
      getWinnerInfo g =
        some
          (g.playerNames.filterMap fun q =>
             if winnerDelta pm q.1 > 0 then
               some ⟨q.1, getPlayerUsername g q.1,
                 jsOr (pm.finalMoney.lookup (q.1 + 1)) 0, winnerDelta pm q.1⟩
             else none,
           g.playerNames.filterMap fun q =>
             if winnerDelta pm q.1 < 0 then
               some ⟨q.1, getPlayerUsername g q.1,
                 jsOr (pm.finalMoney.lookup (q.1 + 1)) 0, winnerDelta pm q.1⟩
             else none) := by
  refine ⟨?_, rfl, ?_, ?_⟩
  · intro hnone
    simp [startingMoneyOf, hpm, hnone, jsOr]
  · intro hf hs
    simp [winnerDelta, hf, hs, jsOr]
  · simp only [getWinnerInfo, hpm]

/-- C5 witness: a player absent from both money tables (raw index 5) gets
the 10,000 default in reconstruction and delta 0 in the partition. -/
theorem C5_defaults_witness :
    startingMoneyOf gC5 5 = 10000 ∧ winnerDelta ⟨[(1, 500)], []⟩ 5 = 0 :=
  ⟨(C5_defaults gC5 ⟨[(1, 500)], []⟩ 5 rfl).1 (by decide),
   (C5_defaults gC5 ⟨[(1, 500)], []⟩ 5 rfl).2.2.1 (by decide) (by decide)⟩

/-! ### The aggregator agrees with its claim-side description -/

theorem foldl_max_eq (l : List ℕ) : ∀ a : ℕ, l.foldl max a = max a (l.foldl max 0) := by
  induction l with
  | nil => intro a; simp
  | cons x t ih =>
      intro a
      simp only [List.foldl_cons]
      rw [ih (max a x), ih (max 0 x)]
      simp [Nat.max_comm, Nat.max_assoc, Nat.max_left_comm]

theorem le_foldl_max (l : List ℕ) (a : ℕ) (ha : a ∈ l) : a ≤ l.foldl max 0 := by
  induction l with
  | nil => cases ha
  | cons x t ih =>
      rcases List.mem_cons.mp ha with ha | ha
      · subst ha
        rw [List.foldl_cons, foldl_max_eq]
        omega
      · rw [List.foldl_cons, foldl_max_eq]
        have := ih ha
        omega

theorem maxlen_filter (data : List (String × List ℚ)) :
    ((data.filter fun u => u.2.length > 0).map fun u => u.2.length).foldl max 0 =
      (data.map fun u => u.2.length).foldl max 0 := by
  induction data with
  | nil => rfl
  | cons u t ih =>
      by_cases hu : u.2.length > 0
      · have hfil : (u :: t).filter (fun u => u.2.length > 0) =
            u :: t.filter fun u => u.2.length > 0 := by
          simp [List.filter_cons, hu]
        rw [hfil, List.map_cons, List.map_cons, List.foldl_cons, List.foldl_cons,
          foldl_max_eq _ (max 0 u.2.length), foldl_max_eq _ (max 0 u.2.length), ih]
      · have hfil : (u :: t).filter (fun u => u.2.length > 0) =
            t.filter fun u => u.2.length > 0 := by
          simp [List.filter_cons, hu]
        have hlen : u.2.length = 0 := by omega
        rw [hfil, List.map_cons, List.foldl_cons, ih, hlen]
        simp

theorem filterMap_get_filter (data : List (String × List ℚ)) (i : ℕ) :
    ((data.filter fun u => u.2.length > 0).filterMap fun u => u.2[i]?) =
      data.filterMap fun u => u.2[i]? := by
  induction data with
  | nil => rfl
  | cons u t ih =>
      by_cases hu : u.2.length > 0
      · have hfil : (u :: t).filter (fun u => u.2.length > 0) =
            u :: t.filter fun u => u.2.length > 0 := by
          simp [List.filter_cons, hu]
        rw [hfil, List.filterMap_cons, List.filterMap_cons, ih]
      · have hlen : u.2 = [] := by
          cases h : u.2 with
          | nil => rfl
          | cons _ _ => rw [h] at hu; simp at hu
        have hfil : (u :: t).filter (fun u => u.2.length > 0) =
            t.filter fun u => u.2.length > 0 := by
          simp [List.filter_cons, hu]
        rw [hfil, List.filterMap_cons, hlen, ih]
        simp

theorem foldl_add_eq (l : List ℚ) : ∀ a : ℚ, l.foldl (· + ·) a = a + l.sum := by
  induction l with
  | nil => intro a; simp
  | cons x t ih =>
      intro a
      simp only [List.foldl_cons, ih, List.sum_cons]
      ring

theorem foldl_add_map_eq (f : ℚ → ℚ) (l : List ℚ) :
    ∀ a : ℚ, l.foldl (fun acc s => acc + f s) a = a + (l.map f).sum := by
  induction l with
  | nil => intro a; simp
  | cons x t ih =>
      intro a
      simp only [List.foldl_cons, ih, List.map_cons, List.sum_cons]
      ring

theorem foldl_max_zero (l : List ℕ) (h : ∀ x ∈ l, x = 0) : l.foldl max 0 = 0 := by
  induction l with
  | nil => rfl
  | cons x t ih =>
      rw [List.foldl_cons, h x (List.mem_cons_self x t)]
      exact ih fun y hy => h y (List.mem_cons_of_mem _ hy)

theorem statFn_eq (data : List (String × List ℚ)) (i : ℕ) :
    (let scores := (data.filter fun u => u.2.length > 0).filterMap fun u => u.2[i]?
     if scores.length = 0 then none
     else
       let sum := scores.foldl (· + ·) 0
       let mean := sum / (scores.length : ℚ)
       let variance :=
         (scores.foldl (fun acc s => acc + (s - mean) ^ 2) 0) / (scores.length : ℚ)
       some
         ({ iteration := i + 1
            mean := mean
            variance := variance
            range := jsMax scores - jsMin scores
            scores := scores } : IterationStats)) =
    (let scores := contributingScores data i
     if scores = [] then none
     else
       let mean := scores.sum / (scores.length : ℚ)
       some
         ({ iteration := i + 1
            mean := mean
            variance := (scores.map fun s => (s - mean) ^ 2).sum / (scores.length : ℚ)
            range := jsMax scores - jsMin scores
            scores := scores } : IterationStats)) := by
  simp only [contributingScores, filterMap_get_filter]
  by_cases hsc : (data.filterMap fun u => u.2[i]?) = []
  · simp [hsc]
  · have hlen : ¬(data.filterMap fun u => u.2[i]?).length = 0 := by
      simpa [List.length_eq_zero] using hsc
    simp only [if_neg hsc, if_neg hlen]
    have hsum : (data.filterMap fun u => u.2[i]?).foldl (· + ·) 0 =
        (data.filterMap fun u => u.2[i]?).sum := by
      rw [foldl_add_eq]
      ring
    rw [hsum]
    have hvar : ∀ m : ℚ,
        (data.filterMap fun u => u.2[i]?).foldl (fun acc s => acc + (s - m) ^ 2) 0 =
          ((data.filterMap fun u => u.2[i]?).map fun s => (s - m) ^ 2).sum := by
      intro m
      rw [foldl_add_map_eq]
      ring
    rw [hvar]

theorem calculateIterationStats_eq_spec (data : List (String × List ℚ)) :
    calculateIterationStats data = iterationStatsSpec data := by
  by_cases h0 : data.length = 0
  · have hnil : data = [] := List.length_eq_zero.mp h0
    subst hnil
    rfl
  · rw [calculateIterationStats, if_neg h0]
    by_cases h1 : (data.filter fun u => u.2.length > 0).length = 0
    · rw [if_pos h1]
      have hnil : (data.filter fun u => u.2.length > 0) = [] :=
        List.length_eq_zero.mp h1
      have hall : ∀ u ∈ data, ¬u.2.length > 0 := by
        intro u hu
        have := List.filter_eq_nil_iff.mp hnil u hu
        simpa using this
      have hmax : (data.map fun u => u.2.length).foldl max 0 = 0 := by
        apply foldl_max_zero
        intro x hx
        obtain ⟨u, hu, hux⟩ := List.mem_map.mp hx
        have := hall u hu
        omega
      rw [iterationStatsSpec, hmax]
      rfl
    · rw [if_neg h1]
      by_cases h2 :
          ((data.filter fun u => u.2.length > 0).map fun u => u.2.length).foldl max 0 = 0
      · exfalso
        have hne : (data.filter fun u => u.2.length > 0) ≠ [] := by
          intro hc
          rw [hc] at h1
          exact h1 rfl
        obtain ⟨u, hu⟩ := List.exists_mem_of_ne_nil _ hne
        have hpos : u.2.length > 0 := by
          have := List.of_mem_filter hu
          simpa using this
        have hle := le_foldl_max
          ((data.filter fun u => u.2.length > 0).map fun u => u.2.length)
          u.2.length (List.mem_map_of_mem _ hu)
        omega
      · rw [if_neg h2]
        rw [iterationStatsSpec, ← maxlen_filter data]
        exact congrArg
          (fun fn => List.filterMap fn
            (List.range
              (((data.filter fun u => u.2.length > 0).map fun u => u.2.length).foldl
                max 0)))
          (funext (statFn_eq data))

/-- C6: the aggregator emits, for exactly the indices with at least one
contributing score, the population statistics of those scores — shorter
series contribute nothing — and every emitted variance is nonnegative, so
`standardDeviation = Math.sqrt(variance)` squares back to the variance. -/
theorem C6_iteration_stats (data : List (String × List ℚ)) :
    calculateIterationStats data = iterationStatsSpec data ∧
      (∀ s ∈ calculateIterationStats data,
        0 ≤ s.variance ∧ Real.sqrt (s.variance : ℝ) ^ 2 = (s.variance : ℝ)) ∧
      ∀ i, contributingScores data i ≠ [] →
        ∃ s ∈ calculateIterationStats data,
          s.iteration = i + 1 ∧ s.scores = contributingScores data i := by
  have heq := calculateIterationStats_eq_spec data
  refine ⟨heq, ?_, ?_⟩
  · intro s hs
    rw [heq, iterationStatsSpec] at hs
    obtain ⟨i, _, hfi⟩ := List.mem_filterMap.mp hs
    by_cases hne : contributingScores data i = []
    · simp [hne] at hfi
    · simp only [if_neg hne] at hfi
      have hs' := Option.some.inj hfi
      have hvar : s.variance =
          ((contributingScores data i).map fun x =>
            (x - (contributingScores data i).sum /
              ((contributingScores data i).length : ℚ)) ^ 2).sum /
            ((contributingScores data i).length : ℚ) := by
        rw [← hs']
      have hnn : 0 ≤ s.variance := by
        rw [hvar]
        apply div_nonneg
        · apply List.sum_nonneg
          intro x hx
          obtain ⟨y, _, hxy⟩ := List.mem_map.mp hx
          rw [← hxy]
          positivity
        · positivity
      refine ⟨hnn, Real.sq_sqrt ?_⟩
      exact_mod_cast hnn
  · intro i hne
    obtain ⟨x, hx⟩ := List.exists_mem_of_ne_nil _ hne
    obtain ⟨u, hu, hux⟩ := List.mem_filterMap.mp hx
    have hilen : i < u.2.length := by
      rcases List.getElem?_eq_some_iff.mp hux with ⟨h, _⟩
      exact h
    have hle := le_foldl_max (data.map fun u => u.2.length) u.2.length
      (List.mem_map_of_mem _ hu)
    have hirange : i ∈ List.range ((data.map fun u => u.2.length).foldl max 0) :=
      List.mem_range.mpr (by omega)
    rw [heq, iterationStatsSpec]
    refine ⟨⟨i + 1,
        (contributingScores data i).sum / ((contributingScores data i).length : ℚ),
        ((contributingScores data i).map fun s =>
          (s - (contributingScores data i).sum /
            ((contributingScores data i).length : ℚ)) ^ 2).sum /
          ((contributingScores data i).length : ℚ),
        jsMax (contributingScores data i) - jsMin (contributingScores data i),
        contributingScores data i⟩,
      List.mem_filterMap.mpr ⟨i, hirange, ?_⟩, rfl, rfl⟩
    simp [if_neg hne]

/-- The spec's worked analytics example. -/
def dataEx : List (String × List ℚ) := [("alice", [100, 150, 90]), ("bob", [100, 80, 200])]

/-- C6 witness: index 1 of the worked example (scores 150 and 80) produces
the stat labelled iteration 2. -/
theorem C6_iteration_stats_witness :
    ∃ s ∈ calculateIterationStats dataEx,
      s.iteration = 1 + 1 ∧ s.scores = contributingScores dataEx 1 :=
  (C6_iteration_stats dataEx).2.2 1 (by decide)

/-! ### Downsampling -/

theorem dsChunks_eq (n : ℕ) (hn : 2 ≤ n) (l : List ℚ) :
    dsChunks n l =
      (List.range ((l.length + (n - 1)) / n)).map fun j => (l.drop (j * n)).take n := by
  obtain ⟨m, rfl⟩ : ∃ m, n = m + 2 := ⟨n - 2, by omega⟩
  clear hn
  generalize hk : l.length = k
  induction k using Nat.strong_induction_on generalizing l with
  | _ k ih =>
    have h30 : m + 2 - 1 = m + 1 := by omega
    cases l with
    | nil =>
        have hk0 : k = 0 := by simpa using hk.symm
        subst hk0
        rw [dsChunks]
        rw [h30]
        simp [Nat.div_eq_of_lt (show m + 1 < m + 2 by omega)]
    | cons a t =>
        subst hk
        rw [dsChunks, h30]
        have hlt : (t.drop (m + 1)).length < (a :: t).length := by
          simp [List.length_drop]
          omega
        have hrec := ih (t.drop (m + 1)).length hlt (t.drop (m + 1)) rfl
        rw [h30] at hrec
        have hc1 : ((a :: t).length + (m + 1)) / (m + 2) =
            ((t.drop (m + 1)).length + (m + 1)) / (m + 2) + 1 := by
          simp only [List.length_cons, List.length_drop]
          have h1 : t.length + 1 + (m + 1) = t.length + (m + 2) := by omega
          rw [h1, Nat.add_div_right _ (by omega)]
          rcases le_or_lt (m + 1) t.length with hle | hlt2
          · have h2 : t.length - (m + 1) + (m + 1) = t.length := by omega
            rw [h2]
          · have h2 : t.length - (m + 1) = 0 := by omega
            rw [h2, Nat.div_eq_of_lt (by omega), Nat.div_eq_of_lt (by omega)]
        rw [hrec, hc1, List.range_succ_eq_map, List.map_cons, List.map_map]
        congr 1
        · simp
        · apply List.map_congr_left
          intro j hj
          simp only [Function.comp]
          have h4 : (j + 1) * (m + 2) = j * (m + 2) + (m + 1) + 1 := by ring_nf
          rw [h4, List.drop_succ_cons, List.drop_drop]
          congr 2
          omega

/-- C7: `downsampleUserData` is the identity for `n ≤ 1`, and for `n ≥ 2` it
equals the reference chunk-average definition, with `⌈len/n⌉` output
entries. -/
theorem C7_downsample (data : List ℚ) (n : ℕ) :
    (n ≤ 1 → downsampleUserData data n = data) ∧
      (2 ≤ n →
        downsampleUserData data n = downsampleSpec data n ∧
          (downsampleUserData data n).length = (data.length + (n - 1)) / n) := by
  constructor
  · intro h
    rw [downsampleUserData, if_pos h]
  · intro h
    have hnle : ¬n ≤ 1 := by omega
    have hchunks := dsChunks_eq n h data
    constructor
    · rw [downsampleUserData, if_neg hnle, downsampleSpec, hchunks, List.map_map]
      apply List.map_congr_left
      intro j hj
      simp only [Function.comp]
      show jsRound2 _ = jsRound2 _
      congr 1
      rw [foldl_add_eq]
      ring
    · rw [downsampleUserData, if_neg hnle, List.length_map, hchunks,
        List.length_map, List.length_range]

/-- C7 witness: the spec's example `downsample([1,2,3,4,5], 2)`. -/
theorem C7_downsample_witness :
    downsampleUserData [1, 2, 3, 4, 5] 2 = downsampleSpec [1, 2, 3, 4, 5] 2 ∧
      (downsampleUserData [1, 2, 3, 4, 5] 2).length =
        (([1, 2, 3, 4, 5] : List ℚ).length + (2 - 1)) / 2 :=
  (C7_downsample [1, 2, 3, 4, 5] 2).2 (by decide)

/-! ### The detector's final filter / stable sort / truncation -/

theorem gameLE_trans (a b c : InterestingGame) :
    gameLE a b → gameLE b c → gameLE a c := by
  simp only [gameLE, decide_eq_true_eq]
  intro hab hbc
  exact le_trans hbc hab

theorem gameLE_total (a b : InterestingGame) : gameLE a b || gameLE b a := by
  simp only [gameLE, Bool.or_eq_true, decide_eq_true_eq]
  exact le_total b.totalSignificance a.totalSignificance

theorem mem_candidates_reasons (stats : List IterationStats)
    (data : List (String × List ℚ)) :
    ∀ e ∈ interestingCandidates stats data, e.reasons ≠ [] := by
  intro e he
  simp only [interestingCandidates] at he
  split_ifs at he
  · cases he
  · cases he
  · have := List.of_mem_filter he
    intro hc
    rw [hc] at this
    simp at this

/-- C8: the detector's output has at most 10 entries, contains only games
with at least one fired reason, is sorted by descending total significance,
and within each tie class preserves the candidate (map-insertion) order. -/
theorem C8_detector (stats : List IterationStats) (data : List (String × List ℚ)) :
    (detectInterestingGames stats data).length ≤ 10 ∧
      (∀ e ∈ detectInterestingGames stats data, e.reasons ≠ []) ∧
      (detectInterestingGames stats data).Pairwise
        (fun a b => b.totalSignificance ≤ a.totalSignificance) ∧
      ∀ t : ℚ,
        List.Sublist
          ((detectInterestingGames stats data).filter
            fun e => decide (e.totalSignificance = t))
          ((interestingCandidates stats data).filter
            fun e => decide (e.totalSignificance = t)) := by
  refine ⟨?_, ?_, ?_, ?_⟩
  · rw [detectInterestingGames]
    exact List.length_take_le 10 _
  · intro e he
    rw [detectInterestingGames] at he
    have h1 : e ∈ (interestingCandidates stats data).mergeSort gameLE :=
      List.mem_of_mem_take he
    exact mem_candidates_reasons stats data e (List.mem_mergeSort.mp h1)
  · have hsorted : ((interestingCandidates stats data).mergeSort gameLE).Pairwise
        (fun a b => gameLE a b) :=
      List.sorted_mergeSort gameLE_trans gameLE_total _
    have htake : List.Sublist (detectInterestingGames stats data)
        ((interestingCandidates stats data).mergeSort gameLE) :=
      List.take_sublist 10 _
    refine (hsorted.sublist htake).imp ?_
    intro a b h
    simpa [gameLE] using h
  · intro t
    have hfsub : List.Sublist
        ((interestingCandidates stats data).filter
          fun e => decide (e.totalSignificance = t))
        ((interestingCandidates stats data).mergeSort gameLE) := by
      apply List.sublist_mergeSort gameLE_trans gameLE_total
      · apply List.pairwise_of_forall_mem_list
        intro a ha b hb
        have ha' : a.totalSignificance = t := by
          have := List.of_mem_filter ha
          simpa using this
        have hb' : b.totalSignificance = t := by
          have := List.of_mem_filter hb
          simpa using this
        simp [gameLE, ha', hb']
      · exact List.filter_sublist _
    have hperm : List.Perm
        (((interestingCandidates stats data).mergeSort gameLE).filter
          fun e => decide (e.totalSignificance = t))
        ((interestingCandidates stats data).filter
          fun e => decide (e.totalSignificance = t)) :=
      (List.mergeSort_perm _ _).filter _
    have hsub2 : List.Sublist
        (((interestingCandidates stats data).filter
          fun e => decide (e.totalSignificance = t)).filter
          fun e => decide (e.totalSignificance = t))
        (((interestingCandidates stats data).mergeSort gameLE).filter
          fun e => decide (e.totalSignificance = t)) :=
      hfsub.filter _
    have hid : ((interestingCandidates stats data).filter
        (fun e => decide (e.totalSignificance = t))).filter
          (fun e => decide (e.totalSignificance = t)) =
        (interestingCandidates stats data).filter
          (fun e => decide (e.totalSignificance = t)) := by
      rw [List.filter_filter]
      apply List.filter_congr
      intro a _
      rw [Bool.and_self]
    rw [hid] at hsub2
    have heq : ((interestingCandidates stats data).mergeSort gameLE).filter
        (fun e => decide (e.totalSignificance = t)) =
        (interestingCandidates stats data).filter
          (fun e => decide (e.totalSignificance = t)) :=
      (hsub2.eq_of_length hperm.length_eq.symm).symm
    have htake2 : List.Sublist (detectInterestingGames stats data)
        ((interestingCandidates stats data).mergeSort gameLE) :=
      List.take_sublist 10 _
    have := htake2.filter fun e => decide (e.totalSignificance = t)
    rwa [heq] at this

/-- C8 witness: on the worked example the detector flags iteration 2 with a
single breakthrough reason. -/
theorem C8_detector_witness :
    (detectInterestingGames (calculateIterationStats dataEx) dataEx).length ≤ 10 ∧
      (⟨2, [⟨"Player Breakthrough", (1 : ℚ)/2⟩], (1 : ℚ)/2⟩ : InterestingGame).reasons ≠ [] :=
  ⟨(C8_detector (calculateIterationStats dataEx) dataEx).1,
   (C8_detector (calculateIterationStats dataEx) dataEx).2.1 _
     (by
       have hout : detectInterestingGames (calculateIterationStats dataEx) dataEx =
           [⟨2, [⟨"Player Breakthrough", 1/2⟩], 1/2⟩] := by
         norm_num [detectInterestingGames, interestingCandidates, processIteration,
           breakthroughStep, comebackStep, leadershipStep, maxChangeScan,
           combinedChange, findGame, upsert, jsOrNum, calculateIterationStats,
           dataEx, jsMax, jsMin, List.range', List.range_succ, List.filterMap,
           gameLE, List.lookup]
         simp +decide
         norm_num [List.mergeSort]
       rw [hout]
       exact List.mem_singleton.mpr rfl)⟩

/-! ### Board reveal policy and division guards -/

/-- C9: with a five-card final board, the visible prefix for round `r` has
exactly `[0,3,4,5][min r 3]` cards and is an initial segment of the board. -/
theorem C9_board (board : List String) (h : board.length = 5) (r : ℕ) :
    (getBoardCards board r).length = [0, 3, 4, 5].getD (min r 3) 0 ∧
      ∃ rest, getBoardCards board r ++ rest = board := by
  rcases r with _ | _ | _ | _ | r
  · exact ⟨rfl, board, rfl⟩
  · refine ⟨?_, board.drop 3, List.take_append_drop 3 board⟩
    simp [getBoardCards, List.length_take, h]
  · refine ⟨?_, board.drop 4, List.take_append_drop 4 board⟩
    simp [getBoardCards, List.length_take, h]
  · refine ⟨?_, board.drop 5, List.take_append_drop 5 board⟩
    simp [getBoardCards, List.length_take, h]
  · refine ⟨?_, [], by simp [getBoardCards]⟩
    have hmin : min (r + 4) 3 = 3 := by omega
    simp [getBoardCards, hmin, h]

/-- C9 witness: the turn (round 2) shows four of the five cards. -/
theorem C9_board_witness :
    (getBoardCards ["Ah", "Kh", "Qh", "Jh", "Th"] 2).length =
        [0, 3, 4, 5].getD (min 2 3) 0 ∧
      ∃ rest, getBoardCards ["Ah", "Kh", "Qh", "Jh", "Th"] 2 ++ rest =
        ["Ah", "Kh", "Qh", "Jh", "Th"] :=
  C9_board ["Ah", "Kh", "Qh", "Jh", "Th"] rfl 2

/-- C10: the `|| 1` guard used for every relative-change denominator never
yields zero, and when a player's previous score is 0 the percentage
component is dropped so the combined change is the absolute component
`|Δ|/1000` alone. -/
theorem C10_no_div_zero :
    (∀ q : ℚ, jsOrNum q 1 ≠ 0) ∧
      ∀ prevScore currentScore : ℚ, prevScore = 0 →
        combinedChange prevScore currentScore =
          |currentScore - prevScore| / 1000 := by
  constructor
  · intro q
    rw [jsOrNum]
    split_ifs with h
    · exact one_ne_zero
    · exact h
  · intro p c hp
    subst hp
    simp only [combinedChange, ne_eq, not_true_eq_false, if_false]
    exact max_eq_left (by positivity)

/-- C10 witness: at previous score 0 and current score 500 the combined
change is 500/1000. -/
theorem C10_no_div_zero_witness :
    jsOrNum 0 1 ≠ 0 ∧ combinedChange 0 500 = |(500 : ℚ) - 0| / 1000 :=
  ⟨C10_no_div_zero.1 0, C10_no_div_zero.2 0 500 rfl⟩
